import Mathlib

/-!
Verification of the diagnostic-gathering subsystem (`diagnostic/diag.go`).

The development shallowly embeds the Go source: the node state
(`Diagnostics`), the JSON serialization of snapshots (`diagInfo.Marshal`
via `encodeDiagInfo`, mirroring `encoding/json` output for this struct),
the streaming JSON decoder used by `GetDiagnostic`'s inner loop
(`parseDiagInfo` / `decodeStream`, mirroring `json.Decoder.Decode`), the
dedup-ledger check-and-set inlined in `handleDiagnostic`
(`tryClaim`), and the message-handling entry points
(`GetDiagnostic`, `handleDiagnostic`, `HandleMessage`, `sendRequest`).
External collaborators (network, transport, protobuf codec) are passed as
explicit parameters, matching the interfaces the Go code consumes.
-/

namespace Diag

/-- Byte/character payloads are modelled as lists of characters. -/
abbrev Chars := List Char

/-- JSON insignificant whitespace, as in Go's `encoding/json` scanner. -/
def isWsC (c : Char) : Bool := c = ' ' || c = '\t' || c = '\n' || c = '\r'

/-- Decimal-digit test on characters (code points 48–57). -/
def isDigitC (c : Char) : Bool := 48 ≤ c.toNat && c.toNat ≤ 57

/-- Skip leading JSON whitespace. -/
def skipWs : Chars → Chars
  | [] => []
  | c :: cs => if isWsC c then skipWs cs else c :: cs

/-- The character for a decimal digit value below ten. -/
def digitChar (n : Nat) : Char := Char.ofNat (48 + n)

/-- Lower-case hexadecimal digit character, as Go's JSON encoder emits. -/
def hexDigit (n : Nat) : Char :=
  if n < 10 then Char.ofNat (48 + n) else Char.ofNat (87 + n)

/-- Decimal digits of a natural number, most significant first
(`strconv.AppendInt` on a non-negative value). -/
def natDigits (n : Nat) : Chars :=
  if _h : n < 10 then [digitChar n]
  else natDigits (n / 10) ++ [digitChar (n % 10)]
  termination_by n
  decreasing_by exact Nat.div_lt_self (by omega) (by omega)

/-- JSON encoding of an `int64` value: decimal digits with an optional
leading minus sign, exactly as `encoding/json` renders integers. -/
def encodeIntJ (n : Int) : Chars :=
  if n < 0 then '-' :: natDigits n.natAbs else natDigits n.natAbs

/-- Escape a single character the way Go's `encoding/json` string encoder
does with HTML escaping on (the `json.Marshal` default): quote and
backslash get a backslash escape, newline / carriage return / tab get
their two-character escapes, other control characters become `\u00XX`,
the HTML-sensitive characters and the two Unicode line separators become
`\uXXXX`, and everything else passes through unchanged. -/
def escChar (c : Char) : Chars :=
  if c = '"' then ['\\', '"']
  else if c = '\\' then ['\\', '\\']
  else if c = '\n' then ['\\', 'n']
  else if c = '\r' then ['\\', 'r']
  else if c = '\t' then ['\\', 't']
  else if c.toNat < 32 then
    ['\\', 'u', '0', '0', hexDigit (c.toNat / 16), hexDigit (c.toNat % 16)]
  else if c = '<' then ['\\', 'u', '0', '0', '3', 'c']
  else if c = '>' then ['\\', 'u', '0', '0', '3', 'e']
  else if c = '&' then ['\\', 'u', '0', '0', '2', '6']
  else if c.toNat = 8232 then ['\\', 'u', '2', '0', '2', '8']
  else if c.toNat = 8233 then ['\\', 'u', '2', '0', '2', '9']
  else [c]

/-- Escape every character of a string body. -/
def escList (s : Chars) : Chars := (s.map escChar).flatten

/-- JSON string literal: opening quote, escaped body, closing quote. -/
def encodeStringJ (s : Chars) : Chars := '"' :: escList s ++ ['"']

/-- One connection entry of a snapshot (`connDiagInfo` in diag.go):
the measured latency and the pretty-printed peer identifier. -/
structure connDiagInfo where
  Latency : Int
  ID : Chars
deriving DecidableEq, Repr

/-- A node snapshot (`diagInfo` in diag.go). -/
structure diagInfo where
  ID : Chars
  Connections : List connDiagInfo
  Keys : List Chars
  LifeSpan : Int
  CodeVersion : Chars
deriving DecidableEq, Repr

/-- The zero value `new(diagInfo)` that Go's decoder fills in. -/
def zeroDiag : diagInfo := ⟨[], [], [], 0, []⟩

/-- The zero value of a connection entry. -/
def zeroConn : connDiagInfo := ⟨0, []⟩

/-- JSON encoding of one connection entry, in struct field order:
`{"Latency":<int>,"ID":"<escaped>"}`. -/
def encodeConn (c : connDiagInfo) : Chars :=
  '\x7b' :: ('"' :: 'L' :: 'a' :: 't' :: 'e' :: 'n' :: 'c' :: 'y' :: '"' :: ':' ::
    encodeIntJ c.Latency)
  ++ (',' :: '"' :: 'I' :: 'D' :: '"' :: ':' :: encodeStringJ c.ID)
  ++ ['\x7d']

/-- Comma-prefixed encodings of the remaining elements of a JSON
array, generic in the element encoder. -/
def encElems (encElem : α → Chars) : List α → Chars
  | [] => []
  | y :: ys => ',' :: encElem y ++ encElems encElem ys

/-- Comma-prefixed encodings of the remaining list elements. -/
def encodeConnElems : List connDiagInfo → Chars := encElems encodeConn

/-- JSON encoding of the `Connections` slice.  Go marshals a nil slice as
`null`; the slice built by `getDiagInfo` is nil exactly when the peer
list is empty, so the empty list encodes as `null`. -/
def encodeConnList : List connDiagInfo → Chars
  | [] => ['n', 'u', 'l', 'l']
  | c :: cs => '[' :: (encodeConn c ++ encodeConnElems cs) ++ [']']

/-- Comma-prefixed encodings of the remaining key strings. -/
def encodeKeyElems : List Chars → Chars := encElems encodeStringJ

/-- JSON encoding of the `Keys` slice (nil, hence `null`, in every
snapshot the code builds). -/
def encodeKeyList : List Chars → Chars
  | [] => ['n', 'u', 'l', 'l']
  | k :: ks => '[' :: (encodeStringJ k ++ encodeKeyElems ks) ++ [']']

/-- `json.Marshal` output for a `diagInfo` value: one object with the
five fields in struct declaration order and no interior whitespace. -/
def encodeDiagInfo (d : diagInfo) : Chars :=
  '\x7b' :: ('"' :: 'I' :: 'D' :: '"' :: ':' :: encodeStringJ d.ID)
  ++ (',' :: '"' :: 'C' :: 'o' :: 'n' :: 'n' :: 'e' :: 'c' :: 't' :: 'i' :: 'o' :: 'n' :: 's' :: '"' :: ':' ::
      encodeConnList d.Connections)
  ++ (',' :: '"' :: 'K' :: 'e' :: 'y' :: 's' :: '"' :: ':' :: encodeKeyList d.Keys)
  ++ (',' :: '"' :: 'L' :: 'i' :: 'f' :: 'e' :: 'S' :: 'p' :: 'a' :: 'n' :: '"' :: ':' ::
      encodeIntJ d.LifeSpan)
  ++ (',' :: '"' :: 'C' :: 'o' :: 'd' :: 'e' :: 'V' :: 'e' :: 'r' :: 's' :: 'i' :: 'o' :: 'n' :: '"' :: ':' ::
      encodeStringJ d.CodeVersion)
  ++ ['\x7d']

/-- `encoding/json.Marshal` specialized to `diagInfo`.  For this struct
shape (strings, integers, and slices of those) Go's encoder has no
failing case — no unsupported type, no cyclic value — so the model is a
total function wrapped in `Except`: the `.error` branch is the one whose
reachability `diagInfo.Marshal` turns into a panic. -/
def jsonMarshal (di : diagInfo) : Except String Chars := .ok (encodeDiagInfo di)

/-- `(*diagInfo).Marshal` from diag.go: marshal, panicking on error.
Since `jsonMarshal` never errors, the panic branch collapses away. -/
def diagInfo.Marshal (di : diagInfo) : Chars :=
  match jsonMarshal di with
  | .ok b => b
  | .error _ => []

/-- Parse a run of decimal digits, folding them onto an accumulator, and
stop at the first non-digit (the shape of Go's number scanner driving an
`int64` target). -/
def parseDigitsAux : Nat → Chars → Nat × Chars
  | acc, [] => (acc, [])
  | acc, c :: cs =>
    if isDigitC c then parseDigitsAux (acc * 10 + (c.toNat - 48)) cs else (acc, c :: cs)

/-- A continuation character after the integral digits that would make
the number a float (which Go rejects when decoding into an `int64`
field such as `Latency` or `LifeSpan`). -/
def numCont (cs : Chars) : Bool :=
  match cs with
  | c :: _ => c = '.' || c = 'e' || c = 'E'
  | [] => false

/-- Parse an unsigned run of digits starting at `c`, rejecting a
fractional or exponent continuation (Go errors decoding those into an
`int64` field). -/
def parseUnsigned (c : Char) (cs1 : Chars) : Option (Int × Chars) :=
  if isDigitC c then
    let p := parseDigitsAux (c.toNat - 48) cs1
    if numCont p.2 then none else some ((p.1 : Int), p.2)
  else none

/-- Parse the part after a minus sign. -/
def parseNegTail : Chars → Option (Int × Chars)
  | [] => none
  | c2 :: cs2 => (parseUnsigned c2 cs2).map (fun p => (-p.1, p.2))

/-- Parse a JSON integer: optional minus sign then decimal digits. -/
def parseNumber : Chars → Option (Int × Chars)
  | [] => none
  | c :: cs1 => if c = '-' then parseNegTail cs1 else parseUnsigned c cs1

/-- Value of one hexadecimal digit character, if it is one. -/
def hexVal (c : Char) : Option Nat :=
  if 48 ≤ c.toNat && c.toNat ≤ 57 then some (c.toNat - 48)
  else if 97 ≤ c.toNat && c.toNat ≤ 102 then some (c.toNat - 87)
  else if 65 ≤ c.toNat && c.toNat ≤ 70 then some (c.toNat - 55)
  else none

/-- Combine a high surrogate (code unit `n`) with a following `\uXXXX`
low-surrogate escape, as Go's `unquote` does; an invalid continuation
yields U+FFFD and resumes right after the first escape. -/
def surrPair (n : Nat) (cs : Chars) : Char × Chars :=
  match cs with
  | e2 :: u2 :: a2 :: b2 :: c4 :: d2 :: cs4 =>
    if e2 = '\\' ∧ u2 = 'u' then
      match hexVal a2, hexVal b2, hexVal c4, hexVal d2 with
      | some y1, some y2, some y3, some y4 =>
        let m := ((y1 * 16 + y2) * 16 + y3) * 16 + y4
        if 56320 ≤ m ∧ m ≤ 57343 then
          (Char.ofNat ((n - 55296) * 1024 + (m - 56320) + 65536), cs4)
        else (Char.ofNat 65533, cs)
      | _, _, _, _ => (Char.ofNat 65533, cs)
    else (Char.ofNat 65533, cs)
  | _ => (Char.ofNat 65533, cs)

theorem surrPair_length (n : Nat) (cs : Chars) : (surrPair n cs).2.length ≤ cs.length := by
  unfold surrPair
  split
  · split
    · split
      · dsimp only
        split <;> simp +arith
      all_goals simp
    · simp
  · simp

/-- The single-character backslash escapes Go's `unquote` accepts. -/
def simpleEsc (e : Char) : Option Char :=
  if e = '"' then some '"'
  else if e = '\\' then some '\\'
  else if e = '/' then some '/'
  else if e = 'b' then some (Char.ofNat 8)
  else if e = 'f' then some (Char.ofNat 12)
  else if e = 'n' then some '\n'
  else if e = 'r' then some '\r'
  else if e = 't' then some '\t'
  else none

/-- Decode a `\uXXXX` escape given the characters after the `u`:
four hex digits, with surrogate-pair combination via `surrPair`, an
unpaired low surrogate becoming U+FFFD, as in Go's `unquote`. -/
def unescapeU (cs : Chars) : Option (Char × Chars) :=
  match cs with
  | a :: b :: c3 :: d :: cs3 =>
    match hexVal a, hexVal b, hexVal c3, hexVal d with
    | some x1, some x2, some x3, some x4 =>
      let n := ((x1 * 16 + x2) * 16 + x3) * 16 + x4
      if 55296 ≤ n ∧ n ≤ 56319 then some (surrPair n cs3)
      else if 56320 ≤ n ∧ n ≤ 57343 then some (Char.ofNat 65533, cs3)
      else some (Char.ofNat n, cs3)
    | _, _, _, _ => none
  | _ => none

theorem unescapeU_length {cs : Chars} {x : Char} {cs2 : Chars}
    (h : unescapeU cs = some (x, cs2)) : cs2.length ≤ cs.length := by
  unfold unescapeU at h
  split at h
  · rename_i a b c3 d cs3
    split at h
    · rename_i x1 x2 x3 x4 h1 h2 h3 h4
      dsimp only at h
      split at h
      · have hl := surrPair_length (((x1 * 16 + x2) * 16 + x3) * 16 + x4) cs3
        simp only [Option.some.injEq] at h
        rw [h] at hl
        simp only [List.length_cons] at hl ⊢
        omega
      · split at h <;>
          (simp only [Option.some.injEq, Prod.mk.injEq] at h
           obtain ⟨-, rfl⟩ := h
           simp +arith)
    · cases h
  · cases h

/-- Decode one backslash escape (the characters after the backslash),
following Go's `unquote`: the simple escapes, and `\uXXXX` through
`unescapeU`. -/
def unescape : Chars → Option (Char × Chars)
  | [] => none
  | e :: cs2 =>
    match simpleEsc e with
    | some x => some (x, cs2)
    | none => if e = 'u' then unescapeU cs2 else none

theorem unescape_length {cs : Chars} {x : Char} {cs2 : Chars}
    (h : unescape cs = some (x, cs2)) : cs2.length ≤ cs.length := by
  unfold unescape at h
  split at h
  · cases h
  · rename_i e cs3
    split at h
    · simp only [Option.some.injEq, Prod.mk.injEq] at h
      obtain ⟨-, rfl⟩ := h
      simp +arith
    · split at h
      · have := unescapeU_length h
        simp +arith
        omega
      · cases h

/-- Parse a JSON string body after the opening quote, up to and past the
closing quote, following Go's `unquote`: backslash escapes via
`unescape`, and a bare control character is a syntax error. -/
def parseStrBody : Chars → Option (Chars × Chars)
  | [] => none
  | c :: cs =>
    if c = '"' then some ([], cs)
    else if c = '\\' then
      match h : unescape cs with
      | none => none
      | some (x, cs2) => (parseStrBody cs2).map (fun p => (x :: p.1, p.2))
    else if c.toNat < 32 then none
    else (parseStrBody cs).map (fun p => (c :: p.1, p.2))
  termination_by cs => cs.length
  decreasing_by
  · have := unescape_length h
    simp +arith
    omega
  · simp +arith

/-- Parse a string-typed field value: a string literal, or `null` (which
Go leaves as the zero string without error). -/
def parseStrValue : Chars → Option (Chars × Chars)
  | '"' :: cs1 => parseStrBody cs1
  | 'n' :: 'u' :: 'l' :: 'l' :: cs1 => some (([], cs1) : Chars × Chars)
  | _ => none

/-- Skip to the close of an already-open bracket nest, string-aware
(used to discard the value of an unknown object key, as Go's decoder
does). -/
def skipBrackets : Nat → Nat → Chars → Option Chars
  | 0, _, _ => none
  | _ + 1, _, [] => none
  | fuel + 1, depth, c :: cs =>
    if c = '"' then
      match parseStrBody cs with
      | some p => skipBrackets fuel depth p.2
      | none => none
    else if c = '\x7b' ∨ c = '[' then skipBrackets fuel (depth + 1) cs
    else if c = '\x7d' ∨ c = ']' then
      if depth = 1 then some cs else skipBrackets fuel (depth - 1) cs
    else skipBrackets fuel depth cs

/-- Consume the characters of a number token. -/
def skipNumChars : Chars → Chars
  | [] => []
  | c :: cs =>
    if isDigitC c || c = '-' || c = '+' || c = '.' || c = 'e' || c = 'E' then
      skipNumChars cs
    else c :: cs

/-- Skip one JSON value of any shape (the fate of an unknown field's
value in Go's struct decoding). -/
def skipJVal (fuel : Nat) (cs : Chars) : Option Chars :=
  match skipWs cs with
  | [] => none
  | c :: cs1 =>
    if c = '"' then (parseStrBody cs1).map (fun p => p.2)
    else if c = '\x7b' ∨ c = '[' then skipBrackets fuel 1 cs1
    else if c = '-' ∨ isDigitC c then some (skipNumChars (c :: cs1))
    else
      match c :: cs1 with
      | 't' :: 'r' :: 'u' :: 'e' :: cs2 => some cs2
      | 'f' :: 'a' :: 'l' :: 's' :: 'e' :: cs2 => some cs2
      | 'n' :: 'u' :: 'l' :: 'l' :: cs2 => some cs2
      | _ => none

/-- Generic JSON object-body loop: parse `"key": value` pairs separated
by commas until the closing brace, dispatching each value through
`pField` (which mirrors Go's per-field reflection dispatch).  Called
just after the opening brace of a non-empty object. -/
def parseObjBody (pField : Nat → Chars → σ → Chars → Option (σ × Chars)) :
    Nat → σ → Chars → Option (σ × Chars)
  | 0, _, _ => none
  | fuel + 1, acc, cs =>
    match skipWs cs with
    | [] => none
    | c0 :: cs1 =>
      if c0 = '"' then
        match parseStrBody cs1 with
        | none => none
        | some (key, cs2) =>
          match skipWs cs2 with
          | [] => none
          | c1 :: cs3 =>
            if c1 = ':' then
              match pField fuel key acc (skipWs cs3) with
              | none => none
              | some (acc2, cs4) =>
                match skipWs cs4 with
                | [] => none
                | c2 :: cs5 =>
                  if c2 = ',' then parseObjBody pField fuel acc2 cs5
                  else if c2 = '\x7d' then some (acc2, cs5)
                  else none
            else none
      else none

/-- Generic JSON array-element loop: parse comma-separated elements
until the closing bracket.  Called just after the opening bracket of a
non-empty array. -/
def parseListLoop (pElem : Chars → Option (α × Chars)) :
    Nat → Chars → Option (List α × Chars)
  | 0, _ => none
  | fuel + 1, cs =>
    match pElem cs with
    | none => none
    | some (a, cs1) =>
      match skipWs cs1 with
      | [] => none
      | c :: cs2 =>
        if c = ',' then (parseListLoop pElem fuel cs2).map (fun p => (a :: p.1, p.2))
        else if c = ']' then some ([a], cs2)
        else none

/-- Field dispatch for a connection entry: `Latency` is an integer,
`ID` a string, anything else is skipped. -/
def connField (fuel : Nat) (key : Chars) (acc : connDiagInfo) (cs : Chars) :
    Option (connDiagInfo × Chars) :=
  if key = ['L', 'a', 't', 'e', 'n', 'c', 'y'] then
    (parseNumber cs).map (fun p => (⟨p.1, acc.ID⟩, p.2))
  else if key = ['I', 'D'] then
    (parseStrValue cs).map (fun p => (⟨acc.Latency, p.1⟩, p.2))
  else (skipJVal fuel cs).map (fun r => (acc, r))

/-- Parse one connection-entry value: an object (possibly empty) or
`null`, each yielding the Go zero value for absent fields. -/
def parseConnValue : Nat → Chars → Option (connDiagInfo × Chars)
  | _, 'n' :: 'u' :: 'l' :: 'l' :: cs1 => some (zeroConn, cs1)
  | fuel, '\x7b' :: cs1 =>
    (match skipWs cs1 with
     | c2 :: cs2 => if c2 = '\x7d' then some (zeroConn, cs2)
                    else parseObjBody connField fuel zeroConn cs1
     | [] => none)
  | _, _ => none

/-- Parse the `Connections` field value: `null`, `[]`, or a non-empty
array of connection entries. -/
def parseConnsValue : Nat → Chars → Option (List connDiagInfo × Chars)
  | _, 'n' :: 'u' :: 'l' :: 'l' :: cs1 => some (([], cs1) : List connDiagInfo × Chars)
  | fuel, '[' :: cs1 =>
    match skipWs cs1 with
    | c :: cs2 => if c = ']' then some (([], cs2) : List connDiagInfo × Chars)
                  else parseListLoop (parseConnValue fuel) fuel cs1
    | [] => none
  | _, _ => none

/-- Parse the `Keys` field value: `null`, `[]`, or an array of strings. -/
def parseKeysValue : Nat → Chars → Option (List Chars × Chars)
  | _, 'n' :: 'u' :: 'l' :: 'l' :: cs1 => some (([], cs1) : List Chars × Chars)
  | fuel, '[' :: cs1 =>
    match skipWs cs1 with
    | c :: cs2 => if c = ']' then some (([], cs2) : List Chars × Chars)
                  else parseListLoop parseStrValue fuel cs1
    | [] => none
  | _, _ => none

/-- Field dispatch for a `diagInfo` object, one case per struct field,
unknown keys skipped, mirroring Go's case-matched struct decoding. -/
def diagField (fuel : Nat) (key : Chars) (acc : diagInfo) (cs : Chars) :
    Option (diagInfo × Chars) :=
  if key = ['I', 'D'] then
    (parseStrValue cs).map (fun p =>
      (⟨p.1, acc.Connections, acc.Keys, acc.LifeSpan, acc.CodeVersion⟩, p.2))
  else if key = ['C', 'o', 'n', 'n', 'e', 'c', 't', 'i', 'o', 'n', 's'] then
    (parseConnsValue fuel cs).map (fun p =>
      (⟨acc.ID, p.1, acc.Keys, acc.LifeSpan, acc.CodeVersion⟩, p.2))
  else if key = ['K', 'e', 'y', 's'] then
    (parseKeysValue fuel cs).map (fun p =>
      (⟨acc.ID, acc.Connections, p.1, acc.LifeSpan, acc.CodeVersion⟩, p.2))
  else if key = ['L', 'i', 'f', 'e', 'S', 'p', 'a', 'n'] then
    (parseNumber cs).map (fun p =>
      (⟨acc.ID, acc.Connections, acc.Keys, p.1, acc.CodeVersion⟩, p.2))
  else if key = ['C', 'o', 'd', 'e', 'V', 'e', 'r', 's', 'i', 'o', 'n'] then
    (parseStrValue cs).map (fun p =>
      (⟨acc.ID, acc.Connections, acc.Keys, acc.LifeSpan, p.1⟩, p.2))
  else (skipJVal fuel cs).map (fun r => (acc, r))

/-- Parse one `diagInfo` value from the head of the stream: an object
(possibly empty) or `null`, after leading whitespace — the work one
`json.Decoder.Decode(di)` call performs. -/
def parseDiagValue : Nat → Chars → Option (diagInfo × Chars)
  | _, 'n' :: 'u' :: 'l' :: 'l' :: cs1 => some (zeroDiag, cs1)
  | fuel, '\x7b' :: cs1 =>
    (match skipWs cs1 with
     | c2 :: cs2 => if c2 = '\x7d' then some (zeroDiag, cs2)
                    else parseObjBody diagField fuel zeroDiag cs1
     | [] => none)
  | _, _ => none

/-- Parse one `diagInfo` from the stream head, after leading
whitespace. -/
def parseDiagInfo (fuel : Nat) (cs : Chars) : Option (diagInfo × Chars) :=
  parseDiagValue fuel (skipWs cs)

/-- One `Decode` call with the fuel Go's scanner never exhausts: the
input length bounds every loop iteration count. -/
def decodeOne (cs : Chars) : Option (diagInfo × Chars) :=
  parseDiagInfo (cs.length + 1) cs

/-- The decode loop of `GetDiagnostic`: repeatedly decode snapshots
until end-of-stream (second component `true`, Go's `io.EOF`) or a decode
error (second component `false`; the error is logged and the loop
breaks, keeping the snapshots already decoded). -/
def decodeLoop : Nat → Chars → List diagInfo × Bool
  | 0, _ => ([], false)
  | fuel + 1, cs =>
    match skipWs cs with
    | [] => ([], true)
    | c :: cs1 =>
      match decodeOne (c :: cs1) with
      | none => ([], false)
      | some (di, rest) =>
        let p := decodeLoop fuel rest
        (di :: p.1, p.2)

/-- Decode a whole byte stream of concatenated snapshots. -/
def decodeStream (cs : Chars) : List diagInfo × Bool :=
  decodeLoop (cs.length + 1) cs

/-- A connected peer as `getDiagInfo` sees it: `p.ID.Pretty()` and
`p.GetLatency()`. -/
structure PeerHandle where
  ID : Chars
  Latency : Int
deriving DecidableEq, Repr

/-- The dedup ledger `diagMap`: request id keyed to the first-seen time.
Go's map assignment is modelled by consing, so `List.lookup` sees the
newest binding, and no operation ever drops a key. -/
abbrev Ledger := List (String × Nat)

/-- The `Diagnostics` node state.  `network` is `none` when the dynamic
cast `d.network.(*net.IpfsNetwork)` in `getPeers` fails, otherwise it
carries the swarm's current peer list.  `birth` is the construction
time recorded by `NewDiagnostics`. -/
structure Diagnostics where
  diagMap : Ledger
  birth : Nat
  selfID : Chars
  network : Option (List PeerHandle)

/-- `getPeers`: the peer list through the capability cast, nil (empty)
when the network is not an `IpfsNetwork`. -/
def Diagnostics.getPeers (d : Diagnostics) : List PeerHandle :=
  match d.network with
  | some ps => ps
  | none => []

/-- The static build identifier baked into every snapshot. -/
def codeVersion : Chars :=
  String.toList "github.com/jbenet/go-ipfs"

/-- `getDiagInfo`: build the local snapshot at time `now` — version
string, pretty self id, lifespan since birth, no keys, and one
connection entry per currently connected peer. -/
def Diagnostics.getDiagInfo (d : Diagnostics) (now : Nat) : diagInfo :=
  ⟨d.selfID,
   d.getPeers.map (fun p => ⟨p.Latency, p.ID⟩),
   [],
   (now : Int) - (d.birth : Int),
   codeVersion⟩

/-- The dedup ledger's check-and-set, the `diagLock`-guarded block of
`handleDiagnostic` (check membership, insert if absent): returns
whether the id was already present, and the updated ledger. -/
def tryClaim (m : Ledger) (r : String) (now : Nat) : Bool × Ledger :=
  if (m.lookup r).isSome then (true, m) else (false, (r, now) :: m)

/-- A diagnostic protocol message (`Message` in diag.pb.go): the round's
request id and the response payload bytes. -/
structure Message where
  DiagID : String
  Data : Chars
deriving DecidableEq

/-- `newMessage`: a request envelope carrying just the id. -/
def newMessage (diagID : String) : Message := ⟨diagID, []⟩

/-- The per-peer RPC as the gather loops see it — the result of
`getDiagnosticFromPeer`, i.e. `sendRequest` followed by `GetData()`:
`none` on any failure, `some data` on success.  The transport is an
external collaborator, so it enters as an oracle. -/
abbrev RpcOracle := PeerHandle → Option Chars

/-- `GetDiagnostic` (the originator path).  The random `diagID` and the
clock reading `now` enter as parameters.  The id is recorded in the
ledger, the local snapshot seeds the output, and each peer's returned
payload is stream-decoded and appended; a per-peer failure is skipped.
Returns the snapshot list, the error (always `none`, as in the source,
which ends with `return out, nil`), and the updated ledger. -/
def Diagnostics.GetDiagnostic (d : Diagnostics) (diagID : String) (now : Nat)
    (rpc : RpcOracle) : (List diagInfo × Option String) × Ledger :=
  let m2 : Ledger := (diagID, now) :: d.diagMap
  let peers := d.getPeers
  let di := d.getDiagInfo now
  let out : List diagInfo := [di]
  let out := peers.foldl (fun acc p =>
    match rpc p with
    | none => acc
    | some data => acc ++ (decodeStream data).1) out
  ((out, none), m2)

/-- What `handleDiagnostic` did, beyond its returned message: the ledger
afterwards, which peers it issued RPCs to, and whether it built a local
snapshot — recorded so the short-circuit behaviour is visible. -/
structure HandleOut where
  resp : Message
  diagMap : Ledger
  rpcPeers : List PeerHandle
  tookSnapshot : Bool

/-- `handleDiagnostic` (the responder path).  The id is claimed through
the ledger's check-and-set; if it was already present the empty-payload
response goes straight back (no snapshot, no fan-out).  Otherwise the
local snapshot's marshalled bytes seed the buffer and every peer is
queried, successful payloads appended, failures skipped.  The source
never returns a non-nil error from this function. -/
def Diagnostics.handleDiagnostic (d : Diagnostics) (now : Nat) (rpc : RpcOracle)
    (pmes : Message) : HandleOut :=
  let resp := newMessage pmes.DiagID
  match tryClaim d.diagMap pmes.DiagID now with
  | (true, _) => ⟨resp, d.diagMap, [], false⟩
  | (false, m2) =>
    let di := d.getDiagInfo now
    let buf := di.Marshal
    let buf := d.getPeers.foldl (fun b p =>
      match rpc p with
      | none => b
      | some out => b ++ out) buf
    ⟨⟨pmes.DiagID, buf⟩, m2, d.getPeers, true⟩

/-- A transport-level message (`msg.NetMessage`): payload bytes and the
sending peer, each possibly absent. -/
structure NetMessage where
  data : Option (List Nat)
  peer : Option Chars

/-- `HandleMessage`: validate the inbound envelope (data and peer must
be present), decode the protobuf payload through the external codec
`protoUnmarshal`, run `handleDiagnostic`, and re-encode the response
through `fromObject`.  Returns the reply or the error, plus the node's
ledger afterwards. -/
def Diagnostics.HandleMessage
    (protoUnmarshal : List Nat → Option Message)
    (fromObject : Chars → Message → Option NetMessage)
    (d : Diagnostics) (now : Nat) (rpc : RpcOracle)
    (mes : NetMessage) : Except String NetMessage × Ledger :=
  match mes.data with
  | none => (.error "message did not include Data", d.diagMap)
  | some mData =>
    match mes.peer with
    | none => (.error "message did not include a Peer", d.diagMap)
    | some mPeer =>
      match protoUnmarshal mData with
      | none => (.error "Failed to decode protobuf message", d.diagMap)
      | some pmes =>
        let h := d.handleDiagnostic now rpc pmes
        match fromObject mPeer h.resp with
        | none => (.error "Failed to encode protobuf message", h.diagMap)
        | some rmes => (.ok rmes, h.diagMap)

/-- The distinct failure shapes of `sendRequest`: envelope construction
failed, the transport call itself errored, the transport succeeded but
returned no message (`"no response to request"`), or the response bytes
failed to unmarshal. -/
inductive SendErr where
  | fromObjectErr (e : String)
  | transportErr (e : String)
  | emptyResponse
  | decodeErr (e : String)
deriving DecidableEq

/-- `sendRequest`: build the envelope, perform the blocking exchange,
reject a nil reply, and decode the reply's payload.  The three external
steps enter as oracles; each failure branch is tagged with its own
`SendErr` constructor, mirroring the source's distinct return paths. -/
def sendRequest
    (fromObject : Except String NetMessage)
    (send : NetMessage → Except String (Option NetMessage))
    (unmarshal : List Nat → Except String Message) :
    Except SendErr Message :=
  match fromObject with
  | .error e => .error (.fromObjectErr e)
  | .ok mes =>
    match send mes with
    | .error e => .error (.transportErr e)
    | .ok none => .error .emptyResponse
    | .ok (some rmes) =>
      match unmarshal (rmes.data.getD []) with
      | .error e => .error (.decodeErr e)
      | .ok rpmes => .ok rpmes

/-- The snapshots contributed by one peer in the originator's loop:
nothing on RPC failure, the stream-decoded prefix of the returned
payload on success. -/
def peerContrib (rpc : RpcOracle) (p : PeerHandle) : List diagInfo :=
  match rpc p with
  | none => []
  | some data => (decodeStream data).1

/-! ### Basic lemmas about whitespace, digits, and numbers -/

theorem skipWs_cons {c : Char} (cs : Chars) (h : isWsC c = false) :
    skipWs (c :: cs) = c :: cs := by
  rw [skipWs, h]
  simp

theorem digitChar_toNat {n : Nat} (h : n < 10) : (digitChar n).toNat = 48 + n := by
  interval_cases n <;> decide

theorem natDigits_mem_digit {n : Nat} :
    ∀ c ∈ natDigits n, 48 ≤ c.toNat ∧ c.toNat ≤ 57 := by
  induction n using Nat.strong_induction_on with
  | _ n ih =>
    intro c hc
    rw [natDigits] at hc
    by_cases h : n < 10
    · simp [h] at hc
      subst hc
      have := digitChar_toNat h
      omega
    · simp [h] at hc
      rcases hc with hc | hc
      · exact ih (n / 10) (Nat.div_lt_self (by omega) (by omega)) c hc
      · subst hc
        have := digitChar_toNat (Nat.mod_lt n (show 0 < 10 by omega))
        omega

theorem natDigits_ne_nil (n : Nat) : natDigits n ≠ [] := by
  rw [natDigits]
  by_cases h : n < 10 <;> simp [h]

theorem isDigitC_digit {c : Char} (h1 : 48 ≤ c.toNat) (h2 : c.toNat ≤ 57) :
    isDigitC c = true := by
  simp [isDigitC]
  omega

theorem parseDigitsAux_natDigits (n : Nat) : ∀ acc rest,
    parseDigitsAux acc (natDigits n ++ rest)
      = parseDigitsAux (acc * 10 ^ (natDigits n).length + n) rest := by
  induction n using Nat.strong_induction_on with
  | _ n ih =>
    intro acc rest
    by_cases h : n < 10
    · rw [natDigits]
      simp only [h, dite_true, List.singleton_append, List.length_singleton]
      rw [parseDigitsAux]
      rw [isDigitC_digit (by rw [digitChar_toNat h]; omega) (by rw [digitChar_toNat h]; omega)]
      simp only [if_true, digitChar_toNat h]
      congr 1
      omega
    · rw [natDigits]
      simp only [h, dite_false, List.append_assoc, List.singleton_append, List.length_append,
        List.length_singleton]
      rw [ih (n / 10) (Nat.div_lt_self (by omega) (by omega))]
      rw [parseDigitsAux]
      have hd : (digitChar (n % 10)).toNat = 48 + n % 10 :=
        digitChar_toNat (Nat.mod_lt n (by omega))
      rw [isDigitC_digit (by omega) (by omega)]
      simp only [if_true, hd]
      congr 1
      have : 10 ^ ((natDigits (n / 10)).length + 1) = 10 ^ (natDigits (n / 10)).length * 10 :=
        pow_succ 10 _
      rw [this]
      have hmod : n % 10 + 10 * (n / 10) = n := Nat.mod_add_div n 10
      ring_nf
      omega

theorem parseDigitsAux_stop (acc : Nat) (rest : Chars)
    (h : ∀ c, rest.head? = some c → isDigitC c = false) :
    parseDigitsAux acc rest = (acc, rest) := by
  match rest with
  | [] => rw [parseDigitsAux]
  | c :: cs =>
    rw [parseDigitsAux, h c rfl]
    simp

/-- A stream position at which Go's number scanner stops reading an
integer cleanly: the next character is neither a digit nor a
fraction/exponent opener. -/
def numBoundary (rest : Chars) : Prop :=
  ∀ c, rest.head? = some c →
    isDigitC c = false ∧ c ≠ '.' ∧ c ≠ 'e' ∧ c ≠ 'E'

theorem numCont_boundary {rest : Chars} (h : numBoundary rest) : numCont rest = false := by
  match rest with
  | [] => rfl
  | c :: cs =>
    obtain ⟨-, h1, h2, h3⟩ := h c rfl
    rw [numCont]
    simp [h1, h2, h3]

theorem parseNumber_natDigits (n : Nat) (rest : Chars) (hb : numBoundary rest) :
    parseNumber (natDigits n ++ rest) = some ((n : Int), rest) := by
  have hkey := parseDigitsAux_natDigits n 0 rest
  rcases hd : natDigits n with - | ⟨c, cs⟩
  · exact absurd hd (natDigits_ne_nil n)
  · have hcd : 48 ≤ c.toNat ∧ c.toNat ≤ 57 := by
      apply natDigits_mem_digit
      rw [hd]
      simp
    have hdig : isDigitC c = true := isDigitC_digit hcd.1 hcd.2
    rw [hd, List.cons_append, parseDigitsAux, hdig] at hkey
    simp only [if_true] at hkey
    rw [parseDigitsAux_stop _ _ (fun c hc => (hb c hc).1)] at hkey
    norm_num at hkey
    have hne : ¬c = '-' := by
      intro hc
      have h45 : ('-').toNat = 45 := by decide
      rw [hc, h45] at hcd
      omega
    have hstep : parseNumber (c :: cs ++ rest)
        = if c = '-' then parseNegTail (cs ++ rest) else parseUnsigned c (cs ++ rest) := rfl
    rw [hstep, if_neg hne, parseUnsigned, if_pos hdig]
    dsimp only
    rw [hkey, numCont_boundary hb]
    simp

theorem parseNumber_encodeIntJ (n : Int) (rest : Chars) (hb : numBoundary rest) :
    parseNumber (encodeIntJ n ++ rest) = some (n, rest) := by
  rw [encodeIntJ]
  by_cases h : n < 0
  · simp only [h, if_true]
    have hkey := parseDigitsAux_natDigits n.natAbs 0 rest
    rcases hd : natDigits n.natAbs with - | ⟨c, cs⟩
    · exact absurd hd (natDigits_ne_nil _)
    · have hcd : 48 ≤ c.toNat ∧ c.toNat ≤ 57 := by
        apply natDigits_mem_digit
        rw [hd]
        simp
      have hdig : isDigitC c = true := isDigitC_digit hcd.1 hcd.2
      rw [hd, List.cons_append, parseDigitsAux, hdig] at hkey
      simp only [if_true] at hkey
      rw [parseDigitsAux_stop _ _ (fun c hc => (hb c hc).1)] at hkey
      norm_num at hkey
      have hstep : parseNumber ('-' :: c :: cs ++ rest)
          = (parseUnsigned c (cs ++ rest)).map (fun p => (-p.1, p.2)) := rfl
      rw [hstep, parseUnsigned, if_pos hdig]
      dsimp only
      rw [hkey, numCont_boundary hb]
      have hmap : Option.map (fun p => (-p.1, p.2)) (some ((n.natAbs : Int), rest))
          = some (-(n.natAbs : Int), rest) := rfl
      simp only [Bool.false_eq_true, if_false, hmap, Option.some.injEq, Prod.mk.injEq,
        and_true]
      omega
  · simp only [h, if_false]
    have := parseNumber_natDigits n.natAbs rest hb
    rw [this]
    congr 1
    congr 1
    omega



/-! ### String-escape round trip -/

theorem hexVal_hexDigit {x : Nat} (h : x < 16) : hexVal (hexDigit x) = some x := by
  interval_cases x <;> decide

theorem unescapeU_val (a b c3 d : Char) (x1 x2 x3 x4 : Nat) (cs : Chars)
    (h1 : hexVal a = some x1) (h2 : hexVal b = some x2) (h3 : hexVal c3 = some x3)
    (h4 : hexVal d = some x4)
    (hn : ((x1 * 16 + x2) * 16 + x3) * 16 + x4 < 55296) :
    unescapeU (a :: b :: c3 :: d :: cs)
      = some (Char.ofNat (((x1 * 16 + x2) * 16 + x3) * 16 + x4), cs) := by
  simp only [unescapeU, h1, h2, h3, h4]
  rw [if_neg (by omega), if_neg (by omega)]

theorem unescape_simple (e x : Char) (cs : Chars) (h : simpleEsc e = some x) :
    unescape (e :: cs) = some (x, cs) := by
  rw [unescape, h]

theorem unescape_u (cs : Chars) : unescape ('u' :: cs) = unescapeU cs := by
  rw [unescape, show simpleEsc 'u' = none by decide]
  simp

theorem parseStrBody_quote (cs : Chars) : parseStrBody ('"' :: cs) = some ([], cs) := by
  rw [parseStrBody]
  simp

theorem parseStrBody_esc {x : Char} {cs cs2 : Chars} (h : unescape cs = some (x, cs2)) :
    parseStrBody ('\\' :: cs) = (parseStrBody cs2).map (fun p => (x :: p.1, p.2)) := by
  rw [parseStrBody]
  rw [if_neg (by decide), if_pos rfl]
  split
  next heq =>
    rw [h] at heq
    cases heq
  next x2 cs3 heq =>
    rw [h] at heq
    simp only [Option.some.injEq, Prod.mk.injEq] at heq
    obtain ⟨h1, h2⟩ := heq
    subst h1
    subst h2
    rfl

theorem parseStrBody_plain {c : Char} (cs : Chars) (h1 : ¬c = '"') (h2 : ¬c = '\\')
    (h3 : ¬c.toNat < 32) :
    parseStrBody (c :: cs) = (parseStrBody cs).map (fun p => (c :: p.1, p.2)) := by
  rw [parseStrBody]
  simp [h1, h2, h3]

theorem escChar_step (c : Char) (tail : Chars) :
    parseStrBody (escChar c ++ tail) = (parseStrBody tail).map (fun p => (c :: p.1, p.2)) := by
  rw [escChar]
  by_cases hq : c = '"'
  · subst hq
    rw [if_pos rfl, show (['\\', '"'] : Chars) ++ tail = '\\' :: '"' :: tail from rfl]
    rw [parseStrBody_esc (unescape_simple '"' '"' tail (by decide))]
  · rw [if_neg hq]
    by_cases hb : c = '\\'
    · subst hb
      rw [if_pos rfl, show (['\\', '\\'] : Chars) ++ tail = '\\' :: '\\' :: tail from rfl]
      rw [parseStrBody_esc (unescape_simple '\\' '\\' tail (by decide))]
    · rw [if_neg hb]
      by_cases hn : c = '\n'
      · subst hn
        rw [if_pos rfl, show (['\\', 'n'] : Chars) ++ tail = '\\' :: 'n' :: tail from rfl]
        rw [parseStrBody_esc (unescape_simple 'n' '\n' tail (by decide))]
      · rw [if_neg hn]
        by_cases hr : c = '\r'
        · subst hr
          rw [if_pos rfl, show (['\\', 'r'] : Chars) ++ tail = '\\' :: 'r' :: tail from rfl]
          rw [parseStrBody_esc (unescape_simple 'r' '\r' tail (by decide))]
        · rw [if_neg hr]
          by_cases ht : c = '\t'
          · subst ht
            rw [if_pos rfl, show (['\\', 't'] : Chars) ++ tail = '\\' :: 't' :: tail from rfl]
            rw [parseStrBody_esc (unescape_simple 't' '\t' tail (by decide))]
          · rw [if_neg ht]
            by_cases hc : c.toNat < 32
            · rw [if_pos hc]
              rw [show ('\\' :: 'u' :: '0' :: '0' :: hexDigit (c.toNat / 16) ::
                    hexDigit (c.toNat % 16) :: ([] : Chars)) ++ tail
                  = '\\' :: 'u' :: '0' :: '0' :: hexDigit (c.toNat / 16) ::
                    hexDigit (c.toNat % 16) :: tail from rfl]
              have hu : unescape ('u' :: '0' :: '0' :: hexDigit (c.toNat / 16) ::
                  hexDigit (c.toNat % 16) :: tail) = some (c, tail) := by
                rw [unescape_u]
                rw [unescapeU_val '0' '0' (hexDigit (c.toNat / 16)) (hexDigit (c.toNat % 16))
                  0 0 (c.toNat / 16) (c.toNat % 16) tail (by decide) (by decide)
                  (hexVal_hexDigit (by omega)) (hexVal_hexDigit (by omega)) (by omega)]
                have harg : ((0 * 16 + 0) * 16 + c.toNat / 16) * 16 + c.toNat % 16
                    = c.toNat := by omega
                rw [harg, Char.ofNat_toNat]
              rw [parseStrBody_esc hu]
            · rw [if_neg hc]
              by_cases hlt : c = '<'
              · subst hlt
                rw [if_pos rfl]
                rw [show ('\\' :: 'u' :: '0' :: '0' :: '3' :: 'c' :: ([] : Chars)) ++ tail
                    = '\\' :: 'u' :: '0' :: '0' :: '3' :: 'c' :: tail from rfl]
                have hu : unescape ('u' :: '0' :: '0' :: '3' :: 'c' :: tail)
                    = some ('<', tail) := by
                  rw [unescape_u]
                  rw [unescapeU_val '0' '0' '3' 'c' 0 0 3 12 tail (by decide) (by decide)
                    (by decide) (by decide) (by omega)]
                rw [parseStrBody_esc hu]
              · rw [if_neg hlt]
                by_cases hgt : c = '>'
                · subst hgt
                  rw [if_pos rfl]
                  rw [show ('\\' :: 'u' :: '0' :: '0' :: '3' :: 'e' :: ([] : Chars)) ++ tail
                      = '\\' :: 'u' :: '0' :: '0' :: '3' :: 'e' :: tail from rfl]
                  have hu : unescape ('u' :: '0' :: '0' :: '3' :: 'e' :: tail)
                      = some ('>', tail) := by
                    rw [unescape_u]
                    rw [unescapeU_val '0' '0' '3' 'e' 0 0 3 14 tail (by decide) (by decide)
                      (by decide) (by decide) (by omega)]
                  rw [parseStrBody_esc hu]
                · rw [if_neg hgt]
                  by_cases ham : c = '&'
                  · subst ham
                    rw [if_pos rfl]
                    rw [show ('\\' :: 'u' :: '0' :: '0' :: '2' :: '6' :: ([] : Chars)) ++ tail
                        = '\\' :: 'u' :: '0' :: '0' :: '2' :: '6' :: tail from rfl]
                    have hu : unescape ('u' :: '0' :: '0' :: '2' :: '6' :: tail)
                        = some ('&', tail) := by
                      rw [unescape_u]
                      rw [unescapeU_val '0' '0' '2' '6' 0 0 2 6 tail (by decide) (by decide)
                        (by decide) (by decide) (by omega)]
                    rw [parseStrBody_esc hu]
                  · rw [if_neg ham]
                    by_cases h28 : c.toNat = 8232
                    · rw [if_pos h28]
                      rw [show ('\\' :: 'u' :: '2' :: '0' :: '2' :: '8' :: ([] : Chars)) ++ tail
                          = '\\' :: 'u' :: '2' :: '0' :: '2' :: '8' :: tail from rfl]
                      have hu : unescape ('u' :: '2' :: '0' :: '2' :: '8' :: tail)
                          = some (c, tail) := by
                        rw [unescape_u]
                        rw [unescapeU_val '2' '0' '2' '8' 2 0 2 8 tail (by decide) (by decide)
                          (by decide) (by decide) (by omega)]
                        have harg : ((2 * 16 + 0) * 16 + 2) * 16 + 8 = c.toNat := by omega
                        rw [harg, Char.ofNat_toNat]
                      rw [parseStrBody_esc hu]
                    · rw [if_neg h28]
                      by_cases h29 : c.toNat = 8233
                      · rw [if_pos h29]
                        rw [show ('\\' :: 'u' :: '2' :: '0' :: '2' :: '9' :: ([] : Chars)) ++ tail
                            = '\\' :: 'u' :: '2' :: '0' :: '2' :: '9' :: tail from rfl]
                        have hu : unescape ('u' :: '2' :: '0' :: '2' :: '9' :: tail)
                            = some (c, tail) := by
                          rw [unescape_u]
                          rw [unescapeU_val '2' '0' '2' '9' 2 0 2 9 tail (by decide) (by decide)
                            (by decide) (by decide) (by omega)]
                          have harg : ((2 * 16 + 0) * 16 + 2) * 16 + 9 = c.toNat := by omega
                          rw [harg, Char.ofNat_toNat]
                        rw [parseStrBody_esc hu]
                      · rw [if_neg h29]
                        rw [show ([c] : Chars) ++ tail = c :: tail from rfl]
                        rw [parseStrBody_plain tail hq hb hc]

theorem parseStrBody_escList (s : Chars) (rest : Chars) :
    parseStrBody (escList s ++ '"' :: rest) = some (s, rest) := by
  induction s with
  | nil =>
    rw [show escList [] = ([] : Chars) from rfl, List.nil_append]
    exact parseStrBody_quote rest
  | cons c s ih =>
    rw [show escList (c :: s) = escChar c ++ escList s from by simp [escList]]
    rw [List.append_assoc, escChar_step, ih]
    rfl

theorem parseStrValue_enc (s rest : Chars) :
    parseStrValue (encodeStringJ s ++ rest) = some (s, rest) := by
  rw [encodeStringJ, show ('"' :: escList s ++ ['"']) ++ rest
      = '"' :: (escList s ++ '"' :: rest) from by simp]
  rw [show parseStrValue ('"' :: (escList s ++ '"' :: rest))
      = parseStrBody (escList s ++ '"' :: rest) from rfl]
  exact parseStrBody_escList s rest


/-! ### Object-body machinery -/

/-- A character the JSON string encoder passes through unescaped and the
decoder consumes as-is (all object keys in this protocol qualify). -/
def plainChar (c : Char) : Bool := decide (¬c = '"' ∧ ¬c = '\\' ∧ ¬c.toNat < 32)

theorem parseStrBody_lit (k : Chars) (hk : ∀ c ∈ k, plainChar c = true) (rest : Chars) :
    parseStrBody (k ++ '"' :: rest) = some (k, rest) := by
  induction k with
  | nil => simpa using parseStrBody_quote rest
  | cons c cs ih =>
    have hc := of_decide_eq_true (hk c (by simp))
    rw [List.cons_append, parseStrBody_plain _ hc.1 hc.2.1 hc.2.2]
    rw [ih (fun c h => hk c (by simp [h]))]
    rfl

theorem parseObjBody_step {σ : Type} (pField : Nat → Chars → σ → Chars → Option (σ × Chars))
    (fuel : Nat) (acc acc2 : σ) (k : Chars) (hk : ∀ c ∈ k, plainChar c = true)
    (v sep : Chars) (hvw : skipWs v = v)
    (hv : pField fuel k acc v = some (acc2, sep)) :
    parseObjBody pField (fuel + 1) acc ('"' :: (k ++ '"' :: ':' :: v))
      = (match skipWs sep with
         | [] => none
         | c2 :: cs5 =>
           if c2 = ',' then parseObjBody pField fuel acc2 cs5
           else if c2 = '\x7d' then some (acc2, cs5)
           else none) := by
  rw [parseObjBody]
  rw [skipWs_cons _ (by decide)]
  dsimp only
  rw [if_pos rfl]
  rw [parseStrBody_lit k hk (':' :: v)]
  dsimp only
  rw [skipWs_cons _ (by decide)]
  dsimp only
  rw [if_pos rfl, hvw, hv]

theorem isWsC_false {c : Char} (h : 48 ≤ c.toNat ∧ c.toNat ≤ 57) : isWsC c = false := by
  have h1 : ¬c = ' ' := by
    intro hC
    subst hC
    exact absurd h (by decide)
  have h2 : ¬c = '\t' := by
    intro hC
    subst hC
    exact absurd h (by decide)
  have h3 : ¬c = '\n' := by
    intro hC
    subst hC
    exact absurd h (by decide)
  have h4 : ¬c = '\r' := by
    intro hC
    subst hC
    exact absurd h (by decide)
  simp [isWsC, h1, h2, h3, h4]

theorem skipWs_encodeIntJ (n : Int) (r : Chars) :
    skipWs (encodeIntJ n ++ r) = encodeIntJ n ++ r := by
  rw [encodeIntJ]
  by_cases h : n < 0
  · simp only [h, if_true, List.cons_append]
    exact skipWs_cons _ (by decide)
  · simp only [h, if_false]
    rcases hd : natDigits n.natAbs with - | ⟨c, cs⟩
    · exact absurd hd (natDigits_ne_nil _)
    · rw [List.cons_append]
      refine skipWs_cons _ (isWsC_false ?_)
      apply natDigits_mem_digit (n := n.natAbs)
      rw [hd]
      simp

theorem skipWs_encodeStringJ (s : Chars) (r : Chars) :
    skipWs (encodeStringJ s ++ r) = encodeStringJ s ++ r := by
  rw [encodeStringJ, List.cons_append]
  exact skipWs_cons _ (by decide)

theorem numBoundary_comma (r : Chars) : numBoundary (',' :: r) := by
  intro c hc
  simp only [List.head?_cons, Option.some.injEq] at hc
  subst hc
  refine ⟨by decide, by decide, by decide, by decide⟩

theorem numBoundary_rbrace (r : Chars) : numBoundary ('\x7d' :: r) := by
  intro c hc
  simp only [List.head?_cons, Option.some.injEq] at hc
  subst hc
  refine ⟨by decide, by decide, by decide, by decide⟩

/-! ### Connection-entry round trip -/

theorem parseConnValue_enc (cl : connDiagInfo) (rest : Chars) (fuel : Nat)
    (hf : 2 ≤ fuel) :
    parseConnValue fuel (encodeConn cl ++ rest) = some (cl, rest) := by
  obtain ⟨f, rfl⟩ : ∃ f, fuel = f + 2 := ⟨fuel - 2, by omega⟩
  obtain ⟨n, sid⟩ := cl
  have hsh : encodeConn ⟨n, sid⟩ ++ rest
      = '\x7b' :: ('"' :: (['L', 'a', 't', 'e', 'n', 'c', 'y'] ++ '"' :: ':' ::
          (encodeIntJ n ++ (',' :: '"' :: (['I', 'D'] ++ '"' :: ':' ::
            (encodeStringJ sid ++ ('\x7d' :: rest))))))) := by
    simp [encodeConn]
  rw [hsh, parseConnValue]
  rw [skipWs_cons _ (by decide)]
  dsimp only
  rw [if_neg (by decide)]
  have hv1 : connField (f + 1) ['L', 'a', 't', 'e', 'n', 'c', 'y'] zeroConn
      (encodeIntJ n ++ (',' :: '"' :: (['I', 'D'] ++ '"' :: ':' ::
        (encodeStringJ sid ++ ('\x7d' :: rest)))))
      = some (⟨n, zeroConn.ID⟩, ',' :: '"' :: (['I', 'D'] ++ '"' :: ':' ::
        (encodeStringJ sid ++ ('\x7d' :: rest)))) := by
    rw [connField, if_pos rfl]
    rw [parseNumber_encodeIntJ n _ (numBoundary_comma _)]
    rfl
  rw [parseObjBody_step connField (f + 1) zeroConn _ _ (by decide) _ _
    (skipWs_encodeIntJ n _) hv1]
  rw [skipWs_cons _ (by decide)]
  dsimp only
  rw [if_pos rfl]
  have hv2 : connField f ['I', 'D'] (⟨n, zeroConn.ID⟩ : connDiagInfo)
      (encodeStringJ sid ++ ('\x7d' :: rest))
      = some (⟨n, sid⟩, '\x7d' :: rest) := by
    rw [connField, if_neg (by decide), if_pos rfl]
    rw [parseStrValue_enc sid ('\x7d' :: rest)]
    rfl
  rw [parseObjBody_step connField f _ _ _ (by decide) _ _
    (skipWs_encodeStringJ sid _) hv2]
  rw [skipWs_cons _ (by decide)]
  dsimp only
  rw [if_neg (by decide), if_pos rfl]


/-! ### Array round trip -/

theorem parseListLoop_enc {α : Type} (pElem : Chars → Option (α × Chars))
    (encElem : α → Chars) (x : α) (xs : List α)
    (hx : ∀ a ∈ x :: xs, ∀ r, pElem (encElem a ++ r) = some (a, r)) :
    ∀ fuel, xs.length + 1 ≤ fuel → ∀ rest,
      parseListLoop pElem fuel (encElem x ++ (encElems encElem xs ++ ']' :: rest))
        = some (x :: xs, rest) := by
  induction xs generalizing x with
  | nil =>
    intro fuel hf rest
    obtain ⟨f, rfl⟩ : ∃ f, fuel = f + 1 := ⟨fuel - 1, by omega⟩
    rw [parseListLoop]
    rw [show encElems encElem ([] : List α) = ([] : Chars) from rfl, List.nil_append]
    rw [hx x (by simp) (']' :: rest)]
    dsimp only
    rw [skipWs_cons _ (by decide)]
    dsimp only
    rw [if_neg (by decide), if_pos rfl]
  | cons y ys ih =>
    intro fuel hf rest
    obtain ⟨f, rfl⟩ : ∃ f, fuel = f + 1 := ⟨fuel - 1, by omega⟩
    rw [parseListLoop]
    rw [show encElems encElem (y :: ys) = (',' :: encElem y) ++ encElems encElem ys from rfl]
    simp only [List.cons_append, List.append_assoc]
    rw [hx x (by simp) _]
    dsimp only
    rw [skipWs_cons _ (by decide)]
    dsimp only
    rw [if_pos rfl]
    rw [ih y (fun a ha r => hx a (by simp at ha ⊢; tauto) r) f (by simp at hf ⊢; omega) rest]
    rfl

theorem parseConnsValue_null (fuel : Nat) (rest : Chars) :
    parseConnsValue fuel ('n' :: 'u' :: 'l' :: 'l' :: rest) = some ([], rest) := rfl

theorem parseConnsValue_enc (l : List connDiagInfo) (rest : Chars) (fuel : Nat)
    (hf : l.length + 2 ≤ fuel) :
    parseConnsValue fuel (encodeConnList l ++ rest) = some (l, rest) := by
  cases l with
  | nil =>
    rw [show encodeConnList [] ++ rest = 'n' :: 'u' :: 'l' :: 'l' :: rest from rfl]
    exact parseConnsValue_null fuel rest
  | cons c cs =>
    have hsh : encodeConnList (c :: cs) ++ rest
        = '[' :: (encodeConn c ++ (encodeConnElems cs ++ (']' :: rest))) := by
      simp [encodeConnList]
    rw [hsh, parseConnsValue]
    obtain ⟨t, hec⟩ : ∃ t, encodeConn c = '\x7b' :: t := ⟨_, rfl⟩
    have hws : skipWs (encodeConn c ++ (encodeConnElems cs ++ (']' :: rest)))
        = '\x7b' :: (t ++ (encodeConnElems cs ++ (']' :: rest))) := by
      rw [hec, List.cons_append, skipWs_cons _ (by decide)]
    rw [hws]
    dsimp only
    rw [if_neg (by decide)]
    rw [show encodeConnElems cs = encElems encodeConn cs from rfl]
    rw [parseListLoop_enc (parseConnValue fuel) encodeConn c cs
      (fun a _ r => parseConnValue_enc a r fuel (by omega)) fuel (by simp at hf ⊢; omega) rest]

theorem parseKeysValue_enc (l : List Chars) (rest : Chars) (fuel : Nat)
    (hf : l.length + 1 ≤ fuel) :
    parseKeysValue fuel (encodeKeyList l ++ rest) = some (l, rest) := by
  cases l with
  | nil =>
    rw [show encodeKeyList [] ++ rest = 'n' :: 'u' :: 'l' :: 'l' :: rest from rfl]
    rfl
  | cons k ks =>
    have hsh : encodeKeyList (k :: ks) ++ rest
        = '[' :: (encodeStringJ k ++ (encodeKeyElems ks ++ (']' :: rest))) := by
      simp [encodeKeyList]
    rw [hsh, parseKeysValue]
    have hws : skipWs (encodeStringJ k ++ (encodeKeyElems ks ++ (']' :: rest)))
        = '"' :: (escList k ++ '"' :: (encodeKeyElems ks ++ (']' :: rest))) := by
      rw [encodeStringJ]
      simp only [List.cons_append, List.nil_append, List.append_assoc]
      exact skipWs_cons _ (by decide)
    rw [hws]
    dsimp only
    rw [if_neg (by decide)]
    rw [show encodeKeyElems ks = encElems encodeStringJ ks from rfl]
    rw [parseListLoop_enc parseStrValue encodeStringJ k ks
      (fun a _ r => parseStrValue_enc a r) fuel (by simp at hf ⊢; omega) rest]



/-! ### Snapshot-object round trip -/

theorem skipWs_encodeConnList (l : List connDiagInfo) (r : Chars) :
    skipWs (encodeConnList l ++ r) = encodeConnList l ++ r := by
  cases l with
  | nil =>
    rw [show encodeConnList [] ++ r = 'n' :: 'u' :: 'l' :: 'l' :: r from rfl]
    exact skipWs_cons _ (by decide)
  | cons c cs =>
    obtain ⟨t, hec⟩ : ∃ t, encodeConnList (c :: cs) = '[' :: t := ⟨_, rfl⟩
    rw [hec, List.cons_append]
    exact skipWs_cons _ (by decide)

theorem skipWs_encodeKeyList (l : List Chars) (r : Chars) :
    skipWs (encodeKeyList l ++ r) = encodeKeyList l ++ r := by
  cases l with
  | nil =>
    rw [show encodeKeyList [] ++ r = 'n' :: 'u' :: 'l' :: 'l' :: r from rfl]
    exact skipWs_cons _ (by decide)
  | cons k ks =>
    obtain ⟨t, hek⟩ : ∃ t, encodeKeyList (k :: ks) = '[' :: t := ⟨_, rfl⟩
    rw [hek, List.cons_append]
    exact skipWs_cons _ (by decide)

theorem parseDiagInfo_enc (d : diagInfo) (rest : Chars) (fuel : Nat)
    (hf : d.Connections.length + d.Keys.length + 9 ≤ fuel) :
    parseDiagInfo fuel (encodeDiagInfo d ++ rest) = some (d, rest) := by
  obtain ⟨g, rfl⟩ : ∃ g, fuel = g + 5 := ⟨fuel - 5, by omega⟩
  obtain ⟨sid, conns, keys, ls, cv⟩ := d
  simp only [] at hf
  have hsh : encodeDiagInfo ⟨sid, conns, keys, ls, cv⟩ ++ rest
      = '\x7b' :: ('"' :: (['I', 'D'] ++ '"' :: ':' :: (encodeStringJ sid ++ (',' :: '"' :: (['C', 'o', 'n', 'n', 'e', 'c', 't', 'i', 'o', 'n', 's'] ++ '"' :: ':' :: (encodeConnList conns ++ (',' :: '"' :: (['K', 'e', 'y', 's'] ++ '"' :: ':' :: (encodeKeyList keys ++ (',' :: '"' :: (['L', 'i', 'f', 'e', 'S', 'p', 'a', 'n'] ++ '"' :: ':' :: (encodeIntJ ls ++ (',' :: '"' :: (['C', 'o', 'd', 'e', 'V', 'e', 'r', 's', 'i', 'o', 'n'] ++ '"' :: ':' :: (encodeStringJ cv ++ ('\x7d' :: rest)))))))))))))))) := by
    simp [encodeDiagInfo]
  have hv1 : ∀ sep : Chars,
      diagField (g + 4) ['I', 'D'] zeroDiag (encodeStringJ sid ++ sep)
        = some ((⟨sid, [], [], 0, []⟩ : diagInfo), sep) := by
    intro sep
    rw [diagField, if_pos rfl, parseStrValue_enc]
    rfl
  have hv2 : ∀ sep : Chars,
      diagField (g + 3) ['C', 'o', 'n', 'n', 'e', 'c', 't', 'i', 'o', 'n', 's'] (⟨sid, [], [], 0, []⟩ : diagInfo) (encodeConnList conns ++ sep)
        = some ((⟨sid, conns, [], 0, []⟩ : diagInfo), sep) := by
    intro sep
    rw [diagField, if_neg (by decide), if_pos rfl]
    rw [parseConnsValue_enc conns _ (g + 3) (by omega)]
    rfl
  have hv3 : ∀ sep : Chars,
      diagField (g + 2) ['K', 'e', 'y', 's'] (⟨sid, conns, [], 0, []⟩ : diagInfo) (encodeKeyList keys ++ sep)
        = some ((⟨sid, conns, keys, 0, []⟩ : diagInfo), sep) := by
    intro sep
    rw [diagField, if_neg (by decide), if_neg (by decide), if_pos rfl]
    rw [parseKeysValue_enc keys _ (g + 2) (by omega)]
    rfl
  have hv4 : ∀ r : Chars,
      diagField (g + 1) ['L', 'i', 'f', 'e', 'S', 'p', 'a', 'n'] (⟨sid, conns, keys, 0, []⟩ : diagInfo) (encodeIntJ ls ++ (',' :: r))
        = some ((⟨sid, conns, keys, ls, []⟩ : diagInfo), ',' :: r) := by
    intro r
    rw [diagField, if_neg (by decide), if_neg (by decide), if_neg (by decide), if_pos rfl]
    rw [parseNumber_encodeIntJ ls _ (numBoundary_comma _)]
    rfl
  have hv5 : ∀ sep : Chars,
      diagField g ['C', 'o', 'd', 'e', 'V', 'e', 'r', 's', 'i', 'o', 'n'] (⟨sid, conns, keys, ls, []⟩ : diagInfo) (encodeStringJ cv ++ sep)
        = some ((⟨sid, conns, keys, ls, cv⟩ : diagInfo), sep) := by
    intro sep
    rw [diagField, if_neg (by decide), if_neg (by decide), if_neg (by decide),
      if_neg (by decide), if_pos rfl]
    rw [parseStrValue_enc]
    rfl
  rw [parseDiagInfo, hsh, skipWs_cons _ (by decide), parseDiagValue]
  rw [skipWs_cons _ (by decide)]
  dsimp only
  rw [if_neg (by decide)]
  rw [parseObjBody_step diagField (g + 4) _ _ _ (by decide) _ _
    (skipWs_encodeStringJ sid _) (hv1 _)]
  rw [skipWs_cons _ (by decide)]
  dsimp only
  rw [if_pos rfl]
  rw [parseObjBody_step diagField (g + 3) _ _ _ (by decide) _ _
    (skipWs_encodeConnList conns _) (hv2 _)]
  rw [skipWs_cons _ (by decide)]
  dsimp only
  rw [if_pos rfl]
  rw [parseObjBody_step diagField (g + 2) _ _ _ (by decide) _ _
    (skipWs_encodeKeyList keys _) (hv3 _)]
  rw [skipWs_cons _ (by decide)]
  dsimp only
  rw [if_pos rfl]
  rw [parseObjBody_step diagField (g + 1) _ _ _ (by decide) _ _
    (skipWs_encodeIntJ ls _) (hv4 _)]
  rw [skipWs_cons _ (by decide)]
  dsimp only
  rw [if_pos rfl]
  rw [parseObjBody_step diagField g _ _ _ (by decide) _ _
    (skipWs_encodeStringJ cv _) (hv5 _)]
  rw [skipWs_cons _ (by decide)]
  dsimp only
  rw [if_neg (by decide), if_pos rfl]


/-! ### Fuel bounds and stream decoding -/

theorem encElems_length {α : Type} (encElem : α → Chars) (l : List α) :
    l.length ≤ (encElems encElem l).length := by
  induction l with
  | nil => simp [encElems]
  | cons y ys ih =>
    rw [show encElems encElem (y :: ys) = (',' :: encElem y) ++ encElems encElem ys from rfl]
    simp only [List.length_append, List.length_cons]
    omega

theorem encodeConnList_length (l : List connDiagInfo) :
    l.length ≤ (encodeConnList l).length := by
  cases l with
  | nil => simp [encodeConnList]
  | cons c cs =>
    have h := encElems_length encodeConn cs
    rw [show encodeConnList (c :: cs)
        = '[' :: (encodeConn c ++ encodeConnElems cs) ++ [']'] from rfl]
    rw [show encodeConnElems cs = encElems encodeConn cs from rfl]
    simp only [List.length_append, List.length_cons, List.length_singleton]
    omega

theorem encodeKeyList_length (l : List Chars) :
    l.length ≤ (encodeKeyList l).length := by
  cases l with
  | nil => simp [encodeKeyList]
  | cons k ks =>
    have h := encElems_length encodeStringJ ks
    rw [show encodeKeyList (k :: ks)
        = '[' :: (encodeStringJ k ++ encodeKeyElems ks) ++ [']'] from rfl]
    rw [show encodeKeyElems ks = encElems encodeStringJ ks from rfl]
    simp only [List.length_append, List.length_cons, List.length_singleton]
    omega

theorem encodeDiagInfo_length (d : diagInfo) :
    d.Connections.length + d.Keys.length + 9 ≤ (encodeDiagInfo d).length := by
  have h1 := encodeConnList_length d.Connections
  have h2 := encodeKeyList_length d.Keys
  rw [encodeDiagInfo]
  simp only [List.length_append, List.length_cons, List.length_singleton]
  omega

theorem encodeDiagInfo_length_pos (d : diagInfo) : 1 ≤ (encodeDiagInfo d).length := by
  obtain ⟨t, he⟩ : ∃ t, encodeDiagInfo d = '\x7b' :: t := ⟨_, rfl⟩
  rw [he]
  simp

theorem decodeOne_enc (d : diagInfo) (rest : Chars) :
    decodeOne (encodeDiagInfo d ++ rest) = some (d, rest) := by
  rw [decodeOne]
  apply parseDiagInfo_enc
  have := encodeDiagInfo_length d
  simp only [List.length_append]
  omega

theorem decodeLoop_enc (d : diagInfo) (tail : Chars) (f : Nat) :
    decodeLoop (f + 1) (encodeDiagInfo d ++ tail)
      = (d :: (decodeLoop f tail).1, (decodeLoop f tail).2) := by
  obtain ⟨t, he⟩ : ∃ t, encodeDiagInfo d = '\x7b' :: t := ⟨_, rfl⟩
  rw [decodeLoop]
  rw [he, List.cons_append, skipWs_cons _ (by decide)]
  dsimp only
  rw [← List.cons_append, ← he, decodeOne_enc]

theorem decodeLoop_nil (f : Nat) : decodeLoop (f + 1) [] = ([], true) := by
  rw [decodeLoop]
  rfl

theorem decodeLoop_enc_nil (d : diagInfo) (f : Nat) (hf : 1 ≤ f) :
    decodeLoop (f + 1) (encodeDiagInfo d) = ([d], true) := by
  have h := decodeLoop_enc d [] f
  rw [List.append_nil] at h
  rw [h]
  obtain ⟨f2, rfl⟩ : ∃ f2, f = f2 + 1 := ⟨f - 1, by omega⟩
  rw [decodeLoop_nil]

theorem decodeStream_enc_head (d : diagInfo) (tail : Chars) :
    (decodeStream (encodeDiagInfo d ++ tail)).1.head? = some d := by
  rw [decodeStream]
  rw [show (encodeDiagInfo d ++ tail).length + 1
      = ((encodeDiagInfo d ++ tail).length) + 1 from rfl]
  rw [decodeLoop_enc]
  simp

theorem decodeStream_three (a b c : diagInfo) :
    decodeStream (encodeDiagInfo a ++ (encodeDiagInfo b ++ encodeDiagInfo c))
      = ([a, b, c], true) := by
  have la := encodeDiagInfo_length_pos a
  have lb := encodeDiagInfo_length_pos b
  have lc := encodeDiagInfo_length_pos c
  rw [decodeStream]
  rw [decodeLoop_enc]
  obtain ⟨m, hm, hm2⟩ :
      ∃ m, (encodeDiagInfo a ++ (encodeDiagInfo b ++ encodeDiagInfo c)).length = m + 1
        ∧ 2 ≤ m := by
    refine ⟨(encodeDiagInfo a ++ (encodeDiagInfo b ++ encodeDiagInfo c)).length - 1, ?_, ?_⟩
    · simp only [List.length_append]
      omega
    · simp only [List.length_append]
      omega
  rw [hm, decodeLoop_enc]
  obtain ⟨k, rfl⟩ : ∃ k, m = k + 1 := ⟨m - 1, by omega⟩
  rw [decodeLoop_enc_nil c k (by omega)]


/-! ### Model-level helper lemmas -/

theorem foldl_append_map {α β : Type} (g : β → List α) (l : List β) (acc : List α) :
    l.foldl (fun a p => a ++ g p) acc = acc ++ (l.map g).flatten := by
  induction l generalizing acc with
  | nil => simp
  | cons p ps ih => simp [ih]

theorem Marshal_eq (d : diagInfo) : d.Marshal = encodeDiagInfo d := rfl

theorem decodeOne_marshal (di : diagInfo) : decodeOne di.Marshal = some (di, []) := by
  rw [Marshal_eq, ← List.append_nil (encodeDiagInfo di), decodeOne_enc]

/-- The originator's output list: own snapshot first, then each peer's
stream-decoded contribution in order. -/
theorem GetDiagnostic_out (d : Diagnostics) (diagID : String) (now : Nat)
    (rpc : RpcOracle) :
    (d.GetDiagnostic diagID now rpc).1.1
      = d.getDiagInfo now :: (d.getPeers.map (peerContrib rpc)).flatten := by
  rw [Diagnostics.GetDiagnostic]
  dsimp only
  have hfun : (fun (acc : List diagInfo) p =>
      match rpc p with
      | none => acc
      | some data => acc ++ (decodeStream data).1)
      = (fun acc p => acc ++ peerContrib rpc p) := by
    funext acc p
    cases hp : rpc p <;> simp [peerContrib, hp]
  rw [hfun, foldl_append_map]
  simp

theorem GetDiagnostic_err (d : Diagnostics) (diagID : String) (now : Nat)
    (rpc : RpcOracle) :
    (d.GetDiagnostic diagID now rpc).1.2 = none := rfl

theorem GetDiagnostic_map (d : Diagnostics) (diagID : String) (now : Nat)
    (rpc : RpcOracle) :
    (d.GetDiagnostic diagID now rpc).2 = (diagID, now) :: d.diagMap := rfl

/-- What one peer contributes to the responder's byte buffer. -/
def rpcData (rpc : RpcOracle) (p : PeerHandle) : Chars := (rpc p).getD []

/-- The responder on a fresh request id: claims the id, takes the
snapshot, queries every peer, and returns the concatenated buffer. -/
theorem handleDiagnostic_fresh (d : Diagnostics) (now : Nat) (rpc : RpcOracle)
    (pmes : Message) (hfresh : d.diagMap.lookup pmes.DiagID = none) :
    d.handleDiagnostic now rpc pmes
      = ⟨⟨pmes.DiagID, (d.getDiagInfo now).Marshal ++ (d.getPeers.map (rpcData rpc)).flatten⟩,
         (pmes.DiagID, now) :: d.diagMap, d.getPeers, true⟩ := by
  have hfun : (fun (b : Chars) p =>
      match rpc p with
      | none => b
      | some out => b ++ out)
      = (fun b p => b ++ rpcData rpc p) := by
    funext b p
    cases hp : rpc p <;> simp [rpcData, hp]
  rw [Diagnostics.handleDiagnostic, tryClaim, hfresh]
  simp only [Option.isSome_none, Bool.false_eq_true, if_false]
  rw [hfun, foldl_append_map]

/-- The responder on an already-claimed request id: empty payload, no
snapshot, no RPCs, ledger untouched. -/
theorem handleDiagnostic_dup (d : Diagnostics) (now : Nat) (rpc : RpcOracle)
    (pmes : Message) (hdup : (d.diagMap.lookup pmes.DiagID).isSome) :
    d.handleDiagnostic now rpc pmes
      = ⟨⟨pmes.DiagID, []⟩, d.diagMap, [], false⟩ := by
  rw [Diagnostics.handleDiagnostic, tryClaim, if_pos hdup]
  rfl

theorem lookup_cons_isSome (m : Ledger) (r x : String) (t : Nat)
    (h : (m.lookup r).isSome) : (((x, t) :: m).lookup r).isSome := by
  rw [List.lookup]
  split <;> simp [h]


/-! ### Ledger growth lemmas -/

theorem handleDiagnostic_map_grows (d : Diagnostics) (now : Nat) (rpc : RpcOracle)
    (pmes : Message) (r : String) (h : (d.diagMap.lookup r).isSome) :
    (((d.handleDiagnostic now rpc pmes).diagMap).lookup r).isSome := by
  by_cases hdup : (d.diagMap.lookup pmes.DiagID).isSome
  · rw [handleDiagnostic_dup d now rpc pmes hdup]
    exact h
  · rw [handleDiagnostic_fresh d now rpc pmes
      (by rwa [← Option.not_isSome_iff_eq_none])]
    exact lookup_cons_isSome _ _ _ _ h

theorem HandleMessage_map_grows (pu : List Nat → Option Message)
    (fo : Chars → Message → Option NetMessage) (d : Diagnostics) (now : Nat)
    (rpc : RpcOracle) (mes : NetMessage) (r : String)
    (h : (d.diagMap.lookup r).isSome) :
    (((Diagnostics.HandleMessage pu fo d now rpc mes).2).lookup r).isSome := by
  obtain ⟨md, mp⟩ := mes
  cases md with
  | none => exact h
  | some bs =>
    cases mp with
    | none => exact h
    | some p =>
      cases hpu : pu bs with
      | none =>
        simp only [Diagnostics.HandleMessage, hpu]
        exact h
      | some pmes =>
        cases hfo : fo p ((d.handleDiagnostic now rpc pmes).resp) with
        | none =>
          simp only [Diagnostics.HandleMessage, hpu, hfo]
          exact handleDiagnostic_map_grows d now rpc pmes r h
        | some rmes =>
          simp only [Diagnostics.HandleMessage, hpu, hfo]
          exact handleDiagnostic_map_grows d now rpc pmes r h

/-! ### The claims -/

/-- Claim C1: at a single node, the first ledger claim of a request id
reports it as not previously present and inserts it; every later claim
of the same id reports it as present and leaves the ledger unchanged;
and no operation — the check-and-set itself, the originator path, the
responder path, or the full inbound handler — ever removes an entry. -/
theorem claim_C1 (m : Ledger) (r : String) (t : Nat) :
    ((m.lookup r) = none → tryClaim m r t = (false, (r, t) :: m))
    ∧ ((m.lookup r).isSome → tryClaim m r t = (true, m))
    ∧ (((tryClaim m r t).2.lookup r).isSome)
    ∧ (∀ r2 t2, (m.lookup r).isSome → (((tryClaim m r2 t2).2.lookup r).isSome))
    ∧ (∀ d : Diagnostics, ∀ now rpc pmes, d.diagMap = m → (m.lookup r).isSome →
        (((d.handleDiagnostic now rpc pmes).diagMap.lookup r).isSome))
    ∧ (∀ d : Diagnostics, ∀ diagID now rpc, d.diagMap = m → (m.lookup r).isSome →
        (((d.GetDiagnostic diagID now rpc).2).lookup r).isSome)
    ∧ (∀ pu fo (d : Diagnostics), ∀ now rpc mes, d.diagMap = m → (m.lookup r).isSome →
        (((Diagnostics.HandleMessage pu fo d now rpc mes).2).lookup r).isSome) := by
  refine ⟨?_, ?_, ?_, ?_, ?_, ?_, ?_⟩
  · intro h
    rw [tryClaim, h]
    rfl
  · intro h
    rw [tryClaim, if_pos h]
  · rw [tryClaim]
    split
    · next h => exact h
    · simp [List.lookup]
  · intro r2 t2 h
    rw [tryClaim]
    split
    · exact h
    · exact lookup_cons_isSome _ _ _ _ h
  · intro d now rpc pmes hd h
    subst hd
    exact handleDiagnostic_map_grows d now rpc pmes r h
  · intro d diagID now rpc hd h
    subst hd
    rw [GetDiagnostic_map]
    exact lookup_cons_isSome _ _ _ _ h
  · intro pu fo d now rpc mes hd h
    subst hd
    exact HandleMessage_map_grows pu fo d now rpc mes r h

/-- Witness for C1 at concrete inputs: a fresh id is reported absent
and inserted; claiming it again reports it present; it stays present
through a later responder call for a different id. -/
theorem claim_C1_witness :
    tryClaim [] "a" 0 = (false, [("a", 0)])
    ∧ tryClaim [("a", 0)] "a" 1 = (true, [("a", 0)])
    ∧ ((((Diagnostics.mk [("a", 0)] 0 ['q'] none).handleDiagnostic 2 (fun _ => none)
        ⟨"b", []⟩).diagMap).lookup "a").isSome := by
  refine ⟨(claim_C1 [] "a" 0).1 rfl,
    (claim_C1 [("a", 0)] "a" 1).2.1 (by simp [List.lookup]),
    (claim_C1 [("a", 0)] "a" 0).2.2.2.2.1 (Diagnostics.mk [("a", 0)] 0 ['q'] none)
      2 (fun _ => none) ⟨"b", []⟩ rfl (by simp [List.lookup])⟩

/-- Claim C2: an inbound request whose id is already in the dedup
ledger gets a response with an empty payload, with no snapshot built,
no RPC issued to any peer, and the ledger left unchanged. -/
theorem claim_C2 (d : Diagnostics) (now : Nat) (rpc : RpcOracle) (pmes : Message)
    (hdup : (d.diagMap.lookup pmes.DiagID).isSome) :
    (d.handleDiagnostic now rpc pmes).resp.Data = []
    ∧ (d.handleDiagnostic now rpc pmes).rpcPeers = []
    ∧ (d.handleDiagnostic now rpc pmes).tookSnapshot = false
    ∧ (d.handleDiagnostic now rpc pmes).diagMap = d.diagMap := by
  rw [handleDiagnostic_dup d now rpc pmes hdup]
  exact ⟨rfl, rfl, rfl, rfl⟩

/-- Witness for C2 at a concrete duplicate request. -/
theorem claim_C2_witness :
    ((Diagnostics.mk [("x", 5)] 0 ['q'] none).handleDiagnostic 9 (fun _ => none)
        ⟨"x", []⟩).resp.Data = []
    ∧ ((Diagnostics.mk [("x", 5)] 0 ['q'] none).handleDiagnostic 9 (fun _ => none)
        ⟨"x", []⟩).rpcPeers = []
    ∧ ((Diagnostics.mk [("x", 5)] 0 ['q'] none).handleDiagnostic 9 (fun _ => none)
        ⟨"x", []⟩).tookSnapshot = false
    ∧ ((Diagnostics.mk [("x", 5)] 0 ['q'] none).handleDiagnostic 9 (fun _ => none)
        ⟨"x", []⟩).diagMap = [("x", 5)] :=
  claim_C2 (Diagnostics.mk [("x", 5)] 0 ['q'] none) 9 (fun _ => none) ⟨"x", []⟩
    (by simp [List.lookup])

/-- Claim C3: with zero connected peers, the originator path returns
exactly the one-element sequence holding its own snapshot and a nil
error (and records the new request id in the ledger). -/
theorem claim_C3 (d : Diagnostics) (diagID : String) (now : Nat) (rpc : RpcOracle)
    (hp : d.getPeers = []) :
    d.GetDiagnostic diagID now rpc
      = (([d.getDiagInfo now], none), (diagID, now) :: d.diagMap) := by
  rw [Diagnostics.GetDiagnostic, hp]
  rfl

/-- Witness for C3 on a node whose network exposes no peer list. -/
theorem claim_C3_witness :
    (Diagnostics.mk [] 3 ['q'] none).GetDiagnostic "id" 7 (fun _ => none)
      = ((([(Diagnostics.mk [] 3 ['q'] none).getDiagInfo 7], none)),
         ("id", 7) :: []) :=
  claim_C3 (Diagnostics.mk [] 3 ['q'] none) "id" 7 (fun _ => none) rfl

/-- Claim C4: whatever the per-peer RPC oracle does — failures
included — the originator returns the accumulated partial sequence
(own snapshot first, then each answering peer's decoded contribution)
and a nil error; no peer failure ever surfaces as an error. -/
theorem claim_C4 (d : Diagnostics) (diagID : String) (now : Nat) (rpc : RpcOracle) :
    (d.GetDiagnostic diagID now rpc).1.2 = none
    ∧ (d.GetDiagnostic diagID now rpc).1.1
        = d.getDiagInfo now :: (d.getPeers.map (peerContrib rpc)).flatten :=
  ⟨GetDiagnostic_err d diagID now rpc, GetDiagnostic_out d diagID now rpc⟩


/-- Claim C5: the first element of an answered request's snapshot
sequence is the answering node's own snapshot — for the originator the
result list starts with its own snapshot and continues with the peers'
decoded contributions; for a responder handling a fresh id, the first
snapshot decoded from the response payload is the responder's own. -/
theorem claim_C5 (d : Diagnostics) (diagID : String) (now : Nat) (rpc : RpcOracle)
    (pmes : Message) (hfresh : d.diagMap.lookup pmes.DiagID = none) :
    (d.GetDiagnostic diagID now rpc).1.1
        = d.getDiagInfo now :: (d.getPeers.map (peerContrib rpc)).flatten
    ∧ ((decodeStream ((d.handleDiagnostic now rpc pmes).resp.Data)).1).head?
        = some (d.getDiagInfo now) := by
  refine ⟨GetDiagnostic_out d diagID now rpc, ?_⟩
  rw [handleDiagnostic_fresh d now rpc pmes hfresh]
  dsimp only
  rw [Marshal_eq]
  exact decodeStream_enc_head _ _

/-- Witness for C5 on a concrete fresh request at a peerless node. -/
theorem claim_C5_witness :
    ((Diagnostics.mk [] 0 ['q'] none).GetDiagnostic "x" 7 (fun _ => none)).1.1
        = (Diagnostics.mk [] 0 ['q'] none).getDiagInfo 7
          :: (((Diagnostics.mk [] 0 ['q'] none).getPeers).map
              (peerContrib (fun _ => none))).flatten
    ∧ ((decodeStream (((Diagnostics.mk [] 0 ['q'] none).handleDiagnostic 7 (fun _ => none)
          ⟨"r", []⟩).resp.Data)).1).head?
        = some ((Diagnostics.mk [] 0 ['q'] none).getDiagInfo 7) :=
  claim_C5 (Diagnostics.mk [] 0 ['q'] none) "x" 7 (fun _ => none) ⟨"r", []⟩ rfl

/-- Claim C6: serializing any snapshot and decoding the bytes yields a
snapshot whose every field — node id, ordered connection list, key
list, lifespan, version string — equals the original's, with the input
fully consumed. -/
theorem claim_C6 (di : diagInfo) :
    ∃ d2, decodeOne di.Marshal = some (d2, [])
      ∧ d2.ID = di.ID ∧ d2.Connections = di.Connections ∧ d2.Keys = di.Keys
      ∧ d2.LifeSpan = di.LifeSpan ∧ d2.CodeVersion = di.CodeVersion :=
  ⟨di, decodeOne_marshal di, rfl, rfl, rfl, rfl, rfl⟩

/-- Claim C7: three snapshot encodings concatenated with no framing
decode back to exactly those three snapshots in order, and the stream
decoder then reports a clean end-of-stream (`true`), not an error. -/
theorem claim_C7 (a b c : diagInfo) :
    decodeStream (a.Marshal ++ (b.Marshal ++ c.Marshal)) = ([a, b, c], true) := by
  simp only [Marshal_eq]
  exact decodeStream_three a b c

/-- Claim C8: the sender's three runtime failure shapes — transport
error, nil reply, and response-decode error — produce the three
distinct `SendErr` values the respective branches of `sendRequest`
return, so a caller can tell them apart. -/
theorem claim_C8 (fo : Except String NetMessage)
    (send : NetMessage → Except String (Option NetMessage))
    (um : List Nat → Except String Message) :
    (∀ mes e, fo = .ok mes → send mes = .error e →
        sendRequest fo send um = .error (.transportErr e))
    ∧ (∀ mes, fo = .ok mes → send mes = .ok none →
        sendRequest fo send um = .error .emptyResponse)
    ∧ (∀ mes rmes e, fo = .ok mes → send mes = .ok (some rmes) →
        um (rmes.data.getD []) = .error e →
        sendRequest fo send um = .error (.decodeErr e))
    ∧ (∀ e e2, SendErr.transportErr e ≠ SendErr.emptyResponse
        ∧ SendErr.transportErr e ≠ SendErr.decodeErr e2
        ∧ SendErr.emptyResponse ≠ SendErr.decodeErr e2) := by
  refine ⟨?_, ?_, ?_, ?_⟩
  · intro mes e hfo hsend
    subst hfo
    simp only [sendRequest, hsend]
  · intro mes hfo hsend
    subst hfo
    simp only [sendRequest, hsend]
  · intro mes rmes e hfo hsend hum
    subst hfo
    simp only [sendRequest, hsend, hum]
  · intro e e2
    refine ⟨by simp, by simp, by simp⟩

/-- Witness for C8 with concrete oracles exercising the transport-error
branch. -/
theorem claim_C8_witness :
    sendRequest (.ok (NetMessage.mk none none)) (fun _ => .error "boom")
        (fun _ => .error "bad") = .error (.transportErr "boom") :=
  (claim_C8 (.ok (NetMessage.mk none none)) (fun _ => .error "boom")
    (fun _ => .error "bad")).1 (NetMessage.mk none none) "boom" rfl rfl

/-- Claim C9: marshalling the locally built snapshot always succeeds —
`jsonMarshal` on a `getDiagInfo` result is `.ok`, never the error that
`Marshal` would turn into a panic — and the produced bytes are a valid
encoding: they decode back to the very snapshot. -/
theorem claim_C9 (d : Diagnostics) (now : Nat) :
    jsonMarshal (d.getDiagInfo now) = .ok ((d.getDiagInfo now).Marshal)
    ∧ decodeOne ((d.getDiagInfo now).Marshal) = some (d.getDiagInfo now, []) :=
  ⟨rfl, decodeOne_marshal _⟩

/-- Claim C10: an inbound message with payload and sender present whose
payload fails protobuf decoding makes `HandleMessage` return a non-nil
error, and the dedup ledger is exactly what it was before the call. -/
theorem claim_C10 (pu : List Nat → Option Message)
    (fo : Chars → Message → Option NetMessage)
    (d : Diagnostics) (now : Nat) (rpc : RpcOracle) (mes : NetMessage)
    (bs : List Nat) (p : Chars)
    (hdata : mes.data = some bs) (hpeer : mes.peer = some p) (hdec : pu bs = none) :
    Diagnostics.HandleMessage pu fo d now rpc mes
      = (.error "Failed to decode protobuf message", d.diagMap) := by
  obtain ⟨md, mp⟩ := mes
  simp only at hdata hpeer
  subst hdata
  subst hpeer
  simp only [Diagnostics.HandleMessage, hdec]

/-- Witness for C10 on a concrete undecodable payload. -/
theorem claim_C10_witness :
    Diagnostics.HandleMessage (fun _ => none) (fun _ _ => none)
        (Diagnostics.mk [("a", 0)] 0 ['q'] none) 4 (fun _ => none)
        (NetMessage.mk (some [1, 2]) (some ['p']))
      = (.error "Failed to decode protobuf message", [("a", 0)]) :=
  claim_C10 (fun _ => none) (fun _ _ => none)
    (Diagnostics.mk [("a", 0)] 0 ['q'] none) 4 (fun _ => none)
    (NetMessage.mk (some [1, 2]) (some ['p'])) [1, 2] ['p'] rfl rfl rfl

end Diag
